import Mathlib

/-!
Shallow embedding of the recipe tool (`recipe_tool.py`): the data model
(`Ingredient`, `Recipe`), the unit-conversion engine, the ingredient-line,
quantity and duration parsers, and the parenthesis balancer.

Modelling conventions:
* Python strings are modelled as `List Char` (`"…".data` in statements).
* Python floats are modelled as exact rationals (`ℚ`); `round(x, 3)` is
  modelled as exact round-half-to-even at three decimals.
* Arithmetic on quantities is written with the executable wrappers
  `qadd`/`qsub`/`qmul`/`qdiv`/`qneg` below, which are proved equal to the
  field operations of `ℚ` (`qadd_eq` …), so that concrete runs of the
  parsers evaluate inside the kernel.
* `None` becomes `Option.none`; a function that can raise an exception
  returns one more `Option` layer, `none` standing for the raised exception.
* Character predicates (`str.isupper`, `\d`, `\s`, `str.lower`) are modelled
  at ASCII level; every string these claims touch is ASCII apart from the
  unicode vulgar-fraction characters, which are carried through verbatim.
-/

/-- Addition on `ℚ` by explicit cross-multiplication (kernel-reducible). -/
def qadd (a b : ℚ) : ℚ := mkRat (a.num * b.den + b.num * a.den) (a.den * b.den)

/-- Subtraction on `ℚ` by explicit cross-multiplication. -/
def qsub (a b : ℚ) : ℚ := mkRat (a.num * b.den - b.num * a.den) (a.den * b.den)

/-- Multiplication on `ℚ` by explicit numerator/denominator product. -/
def qmul (a b : ℚ) : ℚ := mkRat (a.num * b.num) (a.den * b.den)

/-- Division on `ℚ` by explicit cross-multiplication (`x / 0 = 0`). -/
def qdiv (a b : ℚ) : ℚ := Rat.divInt (a.num * b.den) (a.den * b.num)

/-- Negation on `ℚ`. -/
def qneg (a : ℚ) : ℚ := mkRat (-a.num) a.den

/-- Whitespace for `str.strip`/`str.split`/regex `\s` (ASCII set). -/
def isSpaceC (c : Char) : Bool :=
  c = ' ' || c = '\t' || c = '\n' || c = '\r' || c = '\x0b' || c = '\x0c'

/-- Python `str.lower`, ASCII. -/
def pyLower (l : List Char) : List Char := l.map Char.toLower

/-- Python `str.strip()`: drop whitespace from both ends. -/
def pyStrip (l : List Char) : List Char :=
  ((l.dropWhile isSpaceC).reverse.dropWhile isSpaceC).reverse

/-- Fuelled worker for `pySplit` (structural recursion on the fuel keeps
the definition kernel-reducible; `pySplit` always supplies enough fuel). -/
def pySplitF : ℕ → List Char → List (List Char)
  | 0, _ => []
  | _, [] => []
  | fuel + 1, c :: cs =>
    if isSpaceC c then pySplitF fuel cs
    else (c :: cs.takeWhile (fun x => !isSpaceC x)) ::
      pySplitF fuel (cs.dropWhile (fun x => !isSpaceC x))

/-- Python `str.split()` with no argument: split on whitespace runs,
dropping empty fields.  (`l.length + 1` units of fuel always suffice:
every recursive call both consumes one unit and strictly shortens the
list.) -/
def pySplit (l : List Char) : List (List Char) := pySplitF (l.length + 1) l

/-- Python `str.isupper`: at least one cased character and every cased
character is upper case (cased = ASCII letter here). -/
def pyIsUpper (l : List Char) : Bool :=
  l.any Char.isAlpha && l.all (fun c => !c.isAlpha || c.isUpper)

/-- Lookup in a unit table (Python `dict` of unit name to factor). -/
def tableLookup (t : List (List Char × ℚ)) (k : List Char) : Option ℚ :=
  match t with
  | [] => none
  | (k', v) :: rest => if k = k' then some v else tableLookup rest k

/-- The `VOLUME_TO_ML` table: volume unit name to millilitres. -/
def VOLUME_TO_ML : List (List Char × ℚ) :=
  [("ml".data, mkRat 1 1), ("milliliter".data, mkRat 1 1),
   ("milliliters".data, mkRat 1 1),
   ("l".data, mkRat 1000 1), ("liter".data, mkRat 1000 1),
   ("liters".data, mkRat 1000 1),
   ("tsp".data, mkRat 4929 1000), ("teaspoon".data, mkRat 4929 1000),
   ("teaspoons".data, mkRat 4929 1000),
   ("tbsp".data, mkRat 14787 1000), ("tablespoon".data, mkRat 14787 1000),
   ("tablespoons".data, mkRat 14787 1000),
   ("cup".data, mkRat 236588 1000), ("cups".data, mkRat 236588 1000),
   ("fl oz".data, mkRat 29574 1000), ("fluid ounce".data, mkRat 29574 1000),
   ("fluid ounces".data, mkRat 29574 1000),
   ("pint".data, mkRat 473176 1000), ("pints".data, mkRat 473176 1000),
   ("quart".data, mkRat 946353 1000), ("quarts".data, mkRat 946353 1000),
   ("gallon".data, mkRat 378541 100), ("gallons".data, mkRat 378541 100)]

/-- The `WEIGHT_TO_G` table: weight unit name to grams. -/
def WEIGHT_TO_G : List (List Char × ℚ) :=
  [("g".data, mkRat 1 1), ("gram".data, mkRat 1 1),
   ("grams".data, mkRat 1 1),
   ("kg".data, mkRat 1000 1), ("kilogram".data, mkRat 1000 1),
   ("kilograms".data, mkRat 1000 1),
   ("oz".data, mkRat 283495 10000), ("ounce".data, mkRat 283495 10000),
   ("ounces".data, mkRat 283495 10000),
   ("lb".data, mkRat 453592 1000), ("pound".data, mkRat 453592 1000),
   ("pounds".data, mkRat 453592 1000)]

/-- Round-half-to-even to an integer (the tie-breaking rule of Python's
built-in `round`). -/
def roundHalfEven (q : ℚ) : ℤ :=
  if qsub q (⌊q⌋ : ℚ) < mkRat 1 2 then ⌊q⌋
  else if qsub q (⌊q⌋ : ℚ) > mkRat 1 2 then ⌊q⌋ + 1
  else if 2 ∣ ⌊q⌋ then ⌊q⌋ else ⌊q⌋ + 1

/-- Python `round(x, 3)`: round to the nearest multiple of `1/1000`,
ties to even. -/
def round3 (q : ℚ) : ℚ :=
  qdiv (roundHalfEven (qmul q (mkRat 1000 1)) : ℚ) (mkRat 1000 1)

/-- Python `int(x)` on a float: truncation toward zero. -/
def pyInt (q : ℚ) : ℤ := if 0 ≤ q then ⌊q⌋ else ⌈q⌉

/-- The `Ingredient` dataclass. -/
@[ext]
structure Ingredient where
  quantity : Option ℚ
  unit : Option (List Char)
  item : List Char
  original_text : List Char
deriving DecidableEq, Repr

/-- `Ingredient.scale`: `self.quantity * factor if self.quantity else None`
(`0` is falsy in Python, like `None`). -/
def Ingredient.scale (i : Ingredient) (factor : ℚ) : Ingredient :=
  { i with quantity :=
      match i.quantity with
      | some q => if q ≠ 0 then some (qmul q factor) else none
      | none => none }

/-- `Ingredient.convert_unit`: table-driven conversion through the base
unit, rounding to three decimals; identity when quantity or unit is falsy
or the pair of units is not in a common table. -/
def Ingredient.convert_unit (i : Ingredient) (target_unit : List Char) :
    Ingredient :=
  match i.quantity, i.unit with
  | some q, some u =>
    if q = 0 ∨ u = [] then i
    else
      let source_unit := pyLower u
      let target_lower := pyLower target_unit
      match tableLookup VOLUME_TO_ML source_unit,
            tableLookup VOLUME_TO_ML target_lower with
      | some fs, some ft =>
        { i with quantity := some (round3 (qdiv (qmul q fs) ft)),
                 unit := some target_unit }
      | _, _ =>
        match tableLookup WEIGHT_TO_G source_unit,
              tableLookup WEIGHT_TO_G target_lower with
        | some fs, some ft =>
          { i with quantity := some (round3 (qdiv (qmul q fs) ft)),
                   unit := some target_unit }
        | _, _ => i
  | _, _ => i

/-- The `Recipe` dataclass. -/
@[ext]
structure Recipe where
  name : List Char
  servings : Option ℤ
  prep_time : Option (List Char)
  cook_time : Option (List Char)
  total_time : Option (List Char)
  ingredients : List Ingredient
  instructions : List (List Char)
  source_url : Option (List Char)
deriving DecidableEq, Repr

/-- `Recipe.scale`: scale every ingredient, truncate `servings * factor`
to an integer (`0` servings is falsy hence maps to `None`), keep all other
fields. -/
def Recipe.scale (r : Recipe) (factor : ℚ) : Recipe :=
  { r with
    servings :=
      match r.servings with
      | some s => if s ≠ 0 then some (pyInt (qmul (s : ℚ) factor)) else none
      | none => none,
    ingredients := r.ingredients.map (fun i => i.scale factor) }

/-- Value of a list of decimal digits. -/
def digitsVal (l : List Char) : ℕ :=
  l.foldl (fun a c => 10 * a + (c.toNat - 48)) 0

/-- Regex `\d+(?:\.\d+)?`: a decimal number at the head of the list;
returns its value and the remaining characters.  The match is
deterministic: a shorter digit run is always followed by a digit, so the
regex backtracking can never produce another outcome. -/
def matchDecimal (l : List Char) : Option (ℚ × List Char) :=
  let ip := l.takeWhile Char.isDigit
  let r1 := l.dropWhile Char.isDigit
  if ip = [] then none
  else
    match r1 with
    | '.' :: r2 =>
      let fp := r2.takeWhile Char.isDigit
      if fp = [] then some (mkRat (digitsVal ip) 1, r1)
      else some (qadd (mkRat (digitsVal ip) 1)
          (mkRat (digitsVal fp) (10 ^ fp.length)),
        r2.dropWhile Char.isDigit)
    | _ => some (mkRat (digitsVal ip) 1, r1)

/-- The range pattern `(\d+(?:\.\d+)?)\s*-\s*(\d+(?:\.\d+)?)` matched at
the start of the string (`re.match`), returning the two numbers. -/
def matchRange (l : List Char) : Option (ℚ × ℚ) :=
  match matchDecimal l with
  | none => none
  | some (a, r1) =>
    match r1.dropWhile isSpaceC with
    | '-' :: r3 =>
      match matchDecimal (r3.dropWhile isSpaceC) with
      | none => none
      | some (b, _) => some (a, b)
    | _ => none

/-- Exponent suffix of a Python float literal (`[eE][+-]?digits` up to the
end), applied to the mantissa value; `some v` when the suffix is empty. -/
def pyFloatExp (v : ℚ) (l : List Char) : Option ℚ :=
  match l with
  | [] => some v
  | c :: r =>
    if c = 'e' || c = 'E' then
      let sr : Bool × List Char :=
        match r with
        | '+' :: t => (false, t)
        | '-' :: t => (true, t)
        | t => (false, t)
      let ds := sr.2.takeWhile Char.isDigit
      if ds = [] ∨ sr.2.dropWhile Char.isDigit ≠ [] then none
      else if sr.1 then some (qdiv v (mkRat (10 ^ digitsVal ds) 1))
      else some (qmul v (mkRat (10 ^ digitsVal ds) 1))
    else none

/-- Python `float(str)` on a literal: optional sign, decimal digits with an
optional point, optional exponent.  (`inf`, `nan`, underscores and
surrounding whitespace are not modelled; no input here contains them.) -/
def pyFloat (l : List Char) : Option ℚ :=
  let ss : Bool × List Char :=
    match l with
    | '+' :: t => (false, t)
    | '-' :: t => (true, t)
    | t => (false, t)
  let ip := ss.2.takeWhile Char.isDigit
  let mag :=
    match ss.2.dropWhile Char.isDigit with
    | '.' :: r2 =>
      let fp := r2.takeWhile Char.isDigit
      if ip = [] ∧ fp = [] then none
      else pyFloatExp (qadd (mkRat (digitsVal ip) 1)
          (mkRat (digitsVal fp) (10 ^ fp.length)))
        (r2.dropWhile Char.isDigit)
    | r1 =>
      if ip = [] then none
      else pyFloatExp (mkRat (digitsVal ip) 1) r1
  Option.map (fun v => if ss.1 then qneg v else v) mag

/-- The `UNICODE_FRACTIONS` mapping, in insertion order. -/
def UNICODE_FRACTIONS : List (Char × ℚ) :=
  [('½', mkRat 1 2), ('⅓', mkRat 1 3), ('⅔', mkRat 2 3), ('¼', mkRat 1 4),
   ('¾', mkRat 3 4), ('⅛', mkRat 1 8), ('⅜', mkRat 3 8), ('⅝', mkRat 5 8),
   ('⅞', mkRat 7 8)]

/-- One whitespace-separated part of the quantity string: a `/` makes it a
fraction `num/denom` (a part with two or more `/` raises `ValueError` on
unpacking and is skipped, as are unparseable parts and zero denominators);
otherwise it is added as a plain float. -/
def addPart (t : ℚ) (part : List Char) : ℚ :=
  if part.contains '/' then
    match part.splitOn '/' with
    | [numStr, denomStr] =>
      match pyFloat numStr, pyFloat denomStr with
      | some n, some d => if d ≠ 0 then qadd t (qdiv n d) else t
      | _, _ => t
    | _ => t
  else
    match pyFloat part with
    | some v => qadd t v
    | none => t

/-- Fraction-accumulation path of `_parse_quantity`: each vulgar-fraction
character present contributes its value once (`str.replace` then removes
every copy), then every whitespace-separated part of what remains is
accumulated. -/
def parse_quantity_accum (qty_str : List Char) : Option ℚ :=
  let fr := UNICODE_FRACTIONS.foldl
    (fun (acc : ℚ × List Char) p =>
      if acc.2.contains p.1 then (qadd acc.1 p.2, acc.2.filter (· ≠ p.1))
      else acc)
    (0, qty_str)
  let total := (pySplit (pyStrip fr.2)).foldl addPart fr.1
  if total > 0 then some total else none

/-- `RecipeScraper._parse_quantity`. -/
def parse_quantity (qty_str : List Char) : Option ℚ :=
  if qty_str = [] then none
  else if qty_str.contains '-' ∧ qty_str.head? ≠ some '-' then
    match matchRange (pyStrip qty_str) with
    | some lh => some (qdiv (qadd lh.1 lh.2) (mkRat 2 1))
    | none => parse_quantity_accum qty_str
  else parse_quantity_accum qty_str

/-- One `(?:(\d+)X)?` component of the duration regex at letter `X`:
succeeds exactly when a nonempty digit run is followed by `X` (a shorter
run would be followed by a digit, so backtracking adds nothing). -/
def durComponent (u : Char) (l : List Char) : Option (List Char) × List Char :=
  match l.takeWhile Char.isDigit, l.dropWhile Char.isDigit with
  | d :: ds, c :: rest => if c = u then (some (d :: ds), rest) else (none, l)
  | _, _ => (none, l)

/-- `RecipeScraper._parse_duration`: the regex
`PT(?:(\d+)H)?(?:(\d+)M)?(?:(\d+)S)?` (a prefix match), compacted to
`"#h #m #s"`; a string not starting with `PT` is returned verbatim; a falsy
input or a match with no components gives `None`. -/
def parse_duration (duration : Option (List Char)) : Option (List Char) :=
  match duration with
  | none => none
  | some d =>
    if d = [] then none
    else
      match d with
      | 'P' :: 'T' :: rest =>
        let hr := durComponent 'H' rest
        let mr := durComponent 'M' hr.2
        let sr := durComponent 'S' mr.2
        let parts :=
          (match hr.1 with | some hs => [hs ++ ['h']] | none => []) ++
          (match mr.1 with | some ms => [ms ++ ['m']] | none => []) ++
          (match sr.1 with | some ss => [ss ++ ['s']] | none => [])
        if parts = [] then none else some (List.intercalate [' '] parts)
      | _ => some d

/-- First pass of `_balance_parens`: scan left to right tracking depth,
dropping each unmatched closing parenthesis on sight. -/
def balScan (l : List Char) (depth : ℕ) : List Char :=
  match l with
  | [] => []
  | c :: cs =>
    if c = '(' then c :: balScan cs (depth + 1)
    else if c = ')' then
      if depth > 0 then c :: balScan cs (depth - 1) else balScan cs depth
    else c :: balScan cs depth

/-- Remove the first `'('` of a list. -/
def removeFirstOpen (l : List Char) : List Char :=
  match l with
  | [] => []
  | c :: cs => if c = '(' then cs else c :: removeFirstOpen cs

/-- Remove the last `'('` of a list (the `final.rfind('(')` deletion). -/
def removeLastOpen (l : List Char) : List Char :=
  (removeFirstOpen l.reverse).reverse

/-- Fuelled worker for the `while final.count('(') > final.count(')')`
loop of `_balance_parens`: repeatedly delete the rightmost `'('`. -/
def fixOpensF : ℕ → List Char → List Char
  | 0, l => l
  | fuel + 1, l =>
    if l.count ')' < l.count '(' then fixOpensF fuel (removeLastOpen l)
    else l

/-- The deletion loop of `_balance_parens`.  (`l.count '('` units of fuel
always suffice: every iteration requires `count ')' < count '('` and
removes exactly one `'('`, so the loop runs at most
`count '(' - count ')' ≤ count '('` times; `fixOpens_exit` below makes
this exact.) -/
def fixOpens (l : List Char) : List Char := fixOpensF (l.count '(') l

/-- `RecipeScraper._balance_parens`. -/
def balance_parens (l : List Char) : List Char := fixOpens (balScan l 0)

/-- Source and target units are jointly convertible: both appear in the
volume table, or both appear in the weight table. -/
def jointlyConvertible (source target : List Char) : Prop :=
  ((tableLookup VOLUME_TO_ML source).isSome ∧
    (tableLookup VOLUME_TO_ML target).isSome) ∨
  ((tableLookup WEIGHT_TO_G source).isSome ∧
    (tableLookup WEIGHT_TO_G target).isSome)

/-- Recipe with a single present-but-zero ingredient quantity, on which
`scale(·, 1.0)` is not the identity. -/
def r2zero : Recipe :=
  Recipe.mk "Cake".data (some 4) none none none
    [Ingredient.mk (some 0) (some "g".data) "sugar".data "0 g sugar".data]
    ["Mix.".data] none

/-- Recipe with nonzero quantities and servings (witness carrier). -/
def r2w : Recipe :=
  Recipe.mk "Tea".data (some 2) none none none
    [Ingredient.mk (some (mkRat 3 2)) (some "cups".data) "water".data [],
     Ingredient.mk none none "salt".data []]
    ["Boil.".data] (some "u".data)

/-- Recipe with four servings and no ingredients (counterexample and
witness carrier for servings scaling). -/
def r3cex : Recipe :=
  Recipe.mk "Stew".data (some 4) none none none [] [] none

/-- Builder for an ISO-8601 `PT#H#M#S` duration with optional components
(an empty list denotes an absent component). -/
def mkISO (hs ms ss : List Char) : List Char :=
  'P' :: 'T' :: ((if hs = [] then [] else hs ++ ['H']) ++
    ((if ms = [] then [] else ms ++ ['M']) ++
      (if ss = [] then [] else ss ++ ['S'])))

/-- The compact `"#h #m #s"` rendering with absent components omitted. -/
def isoCompact (hs ms ss : List Char) : List Char :=
  List.intercalate [' ']
    ((if hs = [] then [] else [hs ++ ['h']]) ++
     ((if ms = [] then [] else [ms ++ ['m']]) ++
      (if ss = [] then [] else [ss ++ ['s']])))

/-- Scan check: walking the list with a running depth, every closing
parenthesis finds positive depth (i.e. every `')'` is matched when
starting from depth `d`).  This is precisely the property that makes the
first pass of `_balance_parens` keep a string unchanged. -/
def scanOk (l : List Char) (d : ℕ) : Bool :=
  match l with
  | [] => true
  | c :: cs =>
    if c = '(' then scanOk cs (d + 1)
    else if c = ')' then decide (0 < d) && scanOk cs (d - 1)
    else scanOk cs d

/-- Word character for the regex `\b` boundary: `[A-Za-z0-9_]`. -/
def isWordC (c : Char) : Bool := c.isAlpha || c.isDigit || c = '_'

/-- Case-insensitive literal prefix match: consume `pat` (lower case) from
the head of `l`, returning the rest. -/
def stripCI (pat l : List Char) : Option (List Char) :=
  match pat, l with
  | [], rest => some rest
  | _ :: _, [] => none
  | p :: ps, c :: cs => if c.toLower = p then stripCI ps cs else none

/-- Fuelled generic `re.sub(pattern, repl, text)` scanner: at each
position try the pattern; on a match emit the replacement and continue
after the match; otherwise keep one character and move on.
`try_ l = some (rep, k)` means the pattern matches a prefix of `l` of
length `k + 1` (every pattern here consumes at least one character) and
is replaced by `rep`. -/
def subScanF (try_ : List Char → Option (List Char × ℕ)) :
    ℕ → List Char → List Char
  | 0, l => l
  | _, [] => []
  | fuel + 1, c :: cs =>
    match try_ (c :: cs) with
    | some (rep, k) => rep ++ subScanF try_ fuel (cs.drop k)
    | none => c :: subScanF try_ fuel cs

/-- Run a substitution scan over the whole string (`l.length + 1` units of
fuel always suffice: each step consumes at least one character). -/
def subScan (try_ : List Char → Option (List Char × ℕ)) (l : List Char) :
    List Char :=
  subScanF try_ (l.length + 1) l

/-- Pattern `\(Note\s*:?\s*\d*\)` (case-insensitive), replaced by
nothing. -/
def tryNoteParen (l : List Char) : Option (List Char × ℕ) :=
  match l with
  | '(' :: r =>
    match stripCI "note".data r with
    | none => none
    | some r2 =>
      let r4 :=
        match r2.dropWhile isSpaceC with
        | ':' :: t => t.dropWhile isSpaceC
        | t => t.dropWhile isSpaceC
      match r4.dropWhile Char.isDigit with
      | ')' :: rest => some ([], l.length - rest.length - 1)
      | _ => none
  | _ => none

/-- Pattern `\(see\s+note\s*\d*\)` (case-insensitive), replaced by
nothing. -/
def trySeeNote (l : List Char) : Option (List Char × ℕ) :=
  match l with
  | '(' :: r =>
    match stripCI "see".data r with
    | none => none
    | some r2 =>
      match r2 with
      | c :: _ =>
        if isSpaceC c then
          match stripCI "note".data (r2.dropWhile isSpaceC) with
          | none => none
          | some r3 =>
            match (r3.dropWhile isSpaceC).dropWhile Char.isDigit with
            | ')' :: rest => some ([], l.length - rest.length - 1)
            | _ => none
        else none
      | [] => none
  | _ => none

/-- Pattern `Note\s*\d+\b` starting at the current position (the leading
`\b` is handled by the scanner below), replaced by nothing; returns the
extra characters consumed. -/
def tryBareNote (l : List Char) : Option ℕ :=
  match stripCI "note".data l with
  | none => none
  | some r2 =>
    let r3 := r2.dropWhile isSpaceC
    match r3.takeWhile Char.isDigit with
    | [] => none
    | _ :: _ =>
      match r3.dropWhile Char.isDigit with
      | [] => some (l.length - 1)
      | c :: rest =>
        if isWordC c then none
        else some (l.length - (c :: rest).length - 1)

/-- Fuelled scanner for `\bNote\s*\d+\b`: tracks whether the previous
character was a word character (so `\b` holds exactly when it was not);
after a removal the previous character is the final digit of the match,
a word character. -/
def subBareNoteF : ℕ → Bool → List Char → List Char
  | 0, _, l => l
  | _, _, [] => []
  | fuel + 1, prevWord, c :: cs =>
    if prevWord then c :: subBareNoteF fuel (isWordC c) cs
    else
      match tryBareNote (c :: cs) with
      | some k => subBareNoteF fuel true (cs.drop k)
      | none => c :: subBareNoteF fuel (isWordC c) cs

/-- `re.sub(r'\bNote\s*\d+\b', '', text)` (case-insensitive). -/
def subBareNote (l : List Char) : List Char :=
  subBareNoteF (l.length + 1) false l

/-- Pattern `\(\s*,\s*`, replaced by `(`. -/
def tryParenComma (l : List Char) : Option (List Char × ℕ) :=
  match l with
  | '(' :: r =>
    match r.dropWhile isSpaceC with
    | ',' :: r2 =>
      some (['('], l.length - (r2.dropWhile isSpaceC).length - 1)
    | _ => none
  | _ => none

/-- Pattern `\(\(`, replaced by `(`. -/
def tryDoubleOpen (l : List Char) : Option (List Char × ℕ) :=
  match l with
  | '(' :: '(' :: _ => some (['('], 1)
  | _ => none

/-- Pattern `\)\)`, replaced by `)`. -/
def tryDoubleClose (l : List Char) : Option (List Char × ℕ) :=
  match l with
  | ')' :: ')' :: _ => some ([')'], 1)
  | _ => none

/-- Pattern `\(\s*\)`, replaced by nothing. -/
def tryEmptyParens (l : List Char) : Option (List Char × ℕ) :=
  match l with
  | '(' :: r =>
    match r.dropWhile isSpaceC with
    | ')' :: rest => some ([], l.length - rest.length - 1)
    | _ => none
  | _ => none

/-- Pattern `\s+\)`, replaced by `)`. -/
def tryWsClose (l : List Char) : Option (List Char × ℕ) :=
  match l with
  | c :: _ =>
    if isSpaceC c then
      match l.dropWhile isSpaceC with
      | ')' :: rest => some ([')'], l.length - rest.length - 1)
      | _ => none
    else none
  | [] => none

/-- Pattern `\s+`, replaced by a single space. -/
def tryWs (l : List Char) : Option (List Char × ℕ) :=
  match l with
  | c :: _ =>
    if isSpaceC c then some ([' '], (l.takeWhile isSpaceC).length - 1)
    else none
  | [] => none

/-- Pattern `\(\s*$`, replaced by nothing (consumes to the end). -/
def tryTrailOpen (l : List Char) : Option (List Char × ℕ) :=
  match l with
  | '(' :: r =>
    if r.dropWhile isSpaceC = [] then some ([], l.length - 1) else none
  | _ => none

/-- Pattern `,\s*$`, replaced by nothing (consumes to the end). -/
def tryTrailComma (l : List Char) : Option (List Char × ℕ) :=
  match l with
  | ',' :: r =>
    if r.dropWhile isSpaceC = [] then some ([], l.length - 1) else none
  | _ => none

/-- `re.sub(r'^[/\s]+', '', text)`: anchored, so a single leading strip. -/
def stripLeadSlashWs (l : List Char) : List Char :=
  l.dropWhile (fun c => c = '/' || isSpaceC c)

/-- `re.sub(r'^\s*\)', '', text)`: anchored, so applied at most once. -/
def stripLeadWsClose (l : List Char) : List Char :=
  match l.dropWhile isSpaceC with
  | ')' :: t => t
  | _ => l

/-- The character replacements of `_clean_html_text` (smart quotes and
en/em dashes to ASCII). -/
def smartChar (c : Char) : Char :=
  if c = '’' ∨ c = '‘' then '\''
  else if c = '“' ∨ c = '”' then '"'
  else if c = '–' ∨ c = '—' then '-'
  else c

/-- `re.sub(r'^[\-–—]\s*', '', text)`: one leading dash and following
whitespace. -/
def stripLeadDash (l : List Char) : List Char :=
  match l with
  | c :: r =>
    if c = '-' ∨ c = '–' ∨ c = '—' then r.dropWhile isSpaceC else l
  | [] => []

/-- `RecipeScraper._clean_html_text`.  (`html.unescape` is Python
standard-library code outside this repository; on entity-free strings —
all inputs below — it is the identity, and is modelled as such.) -/
def clean_html_text (text : List Char) : List Char :=
  pyStrip (stripLeadDash (pyStrip (subScan tryWs (text.map smartChar))))

/-- `RecipeScraper._clean_ingredient_text`: the chain of `re.sub` fixes,
then parenthesis balancing, then a final strip. -/
def clean_ingredient_text (text : List Char) : List Char :=
  let t1 := clean_html_text text
  let t2 := subScan tryNoteParen t1
  let t3 := subScan trySeeNote t2
  let t4 := subBareNote t3
  let t5 := stripLeadSlashWs t4
  let t6 := subScan tryParenComma t5
  let t7 := subScan tryDoubleOpen t6
  let t8 := subScan tryDoubleClose t7
  let t9 := subScan tryEmptyParens t8
  let t10 := subScan tryWsClose t9
  let t11 := subScan tryWs t10
  let t12 := subScan tryTrailOpen t11
  let t13 := stripLeadWsClose t12
  let t14 := subScan tryTrailComma t13
  pyStrip (balance_parens t14)

/-- Python `str.startswith`. -/
def startsWithL (pre l : List Char) : Bool :=
  decide (l.take pre.length = pre)

/-- The `note_starters` list of `_is_section_header_or_note`, in source
order. -/
def note_starters : List (List Char) :=
  ["see in post".data, "see post".data, "see here".data, "see note".data,
   "see recipe".data, "option to".data, "optional:".data, "options:".data,
   "note:".data, "notes:".data, "for the ".data, "to make ".data,
   "to prepare ".data, "you can also".data, "alternatively".data,
   "substitute".data, "tip:".data, "tips:".data]

/-- `RecipeScraper._is_section_header_or_note`.  Result `none` models the
`IndexError` that `main_part[0]` raises when `main_part` is empty (which
happens whenever the text begins with `'('` and survives the earlier
checks).  `main_part` is `re.split(r'\s*\(', text)[0].strip()`: the first
field of that split is everything before the first `'('` minus the
whitespace run just before it, and the following `.strip()` removes that
whitespace anyway, so it is modelled as `strip (takeWhile (· ≠ '('))`.
The capitalisation threshold `cap_words >= len(words) * 0.7` is exact as
`10 * cap ≥ 7 * len` for the guarded range `len ≤ 3` (the float products
`1*0.7`, `2*0.7`, `3*0.7` round below the rational values, which changes
no integer comparison). -/
def is_section_header_or_note (text : List Char) : Option Bool :=
  let t := pyStrip text
  if t = [] then some true
  else
    let lower := pyLower t
    if note_starters.any (fun st => startsWithL st lower) then some true
    else if startsWithL "(see".data lower || startsWithL "(option".data lower
        || startsWithL "(note".data lower then some true
    else if pyIsUpper t ∧ (pySplit t).length ≤ 4 then some true
    else
      let main_part := pyStrip (t.takeWhile (fun c => c ≠ '('))
      let words := pySplit main_part
      if words.length ≤ 3 ∧ main_part.length ≤ 25 ∧
          ¬ main_part.any Char.isDigit ∧
          ¬ (main_part.contains '/' ∨ main_part.contains ',') then
        match main_part with
        | [] => none
        | c :: _ =>
          if c.isUpper then
            let cap := (words.filter (fun w =>
              match w with
              | [] => false
              | wc :: _ => wc.isUpper)).length
            some (decide (10 * cap ≥ 7 * words.length))
          else some false
      else some false

/-- Quantity character class `[\d\s./½⅓⅔¼¾⅛⅜⅝⅞-]` of
`INGREDIENT_PATTERN`. -/
def isQtyChar (c : Char) : Bool :=
  c.isDigit || isSpaceC c || c = '.' || c = '/' || c = '½' || c = '⅓' ||
    c = '⅔' || c = '¼' || c = '¾' || c = '⅛' || c = '⅜' || c = '⅝' ||
    c = '⅞' || c = '-'

/-- Candidates for the optional greedy quantity group `([class]+)?`, in
the regex preference order: longest run first down to one character, then
the skipped group. -/
def qtyCandidates (l : List Char) : List (Option (List Char) × List Char) :=
  (((List.range (l.takeWhile isQtyChar).length).map
      (fun i => (l.takeWhile isQtyChar).length - i)).map
    (fun k => (some (l.take k), l.drop k))) ++ [(none, l)]

/-- Candidates for a greedy `\s*`, longest first. -/
def wsCandidates (l : List Char) : List (List Char) :=
  (List.range ((l.takeWhile isSpaceC).length + 1)).map
    (fun i => l.drop ((l.takeWhile isSpaceC).length - i))

/-- One case-insensitive literal alternative. -/
def altPlain (base l : List Char) : List (List Char × List Char) :=
  match stripCI base l with
  | some r => [(l.take base.length, r)]
  | none => []

/-- A literal alternative with greedy optional `s?` (the `s` variant is
preferred). -/
def altS (base l : List Char) : List (List Char × List Char) :=
  (match stripCI (base ++ ['s']) l with
   | some r => [(l.take (base.length + 1), r)]
   | none => []) ++ altPlain base l

/-- The `\b` after a single-letter unit: the next character is not a word
character (the preceding one is a letter, so the boundary reduces to
this). -/
def boundaryOk (r : List Char) : Bool :=
  match r with
  | [] => true
  | c :: _ => !(isWordC c)

/-- A literal alternative guarded by a trailing `\b`. -/
def altB (base l : List Char) : List (List Char × List Char) :=
  (altPlain base l).filter (fun p => boundaryOk p.2)

/-- The `fl\s*oz` alternative (`\s*` is forced to the full whitespace run,
as a shorter run would leave a whitespace character where `o` must be). -/
def altFlOz (l : List Char) : List (List Char × List Char) :=
  match stripCI "fl".data l with
  | none => []
  | some r =>
    match stripCI "oz".data (r.dropWhile isSpaceC) with
    | none => []
    | some r3 => [(l.take (l.length - r3.length), r3)]

/-- The `fluid\s*ounces?` alternative. -/
def altFluid (l : List Char) : List (List Char × List Char) :=
  match stripCI "fluid".data l with
  | none => []
  | some r =>
    (match stripCI "ounces".data (r.dropWhile isSpaceC) with
     | some r3 => [(l.take (l.length - r3.length), r3)]
     | none => []) ++
    (match stripCI "ounce".data (r.dropWhile isSpaceC) with
     | some r3 => [(l.take (l.length - r3.length), r3)]
     | none => [])

/-- Candidates for the optional unit group, alternatives in source order,
then the skipped group. -/
def unitCandidates (l : List Char) :
    List (Option (List Char) × List Char) :=
  ((altS "cup".data l ++ altPlain "tbsp".data l ++
    altS "tablespoon".data l ++ altPlain "tsp".data l ++
    altS "teaspoon".data l ++ altPlain "oz".data l ++
    altS "ounce".data l ++ altS "pound".data l ++ altS "lb".data l ++
    altS "gram".data l ++ altB "g".data l ++ altB "kg".data l ++
    altB "ml".data l ++ altS "liter".data l ++ altB "l".data l ++
    altS "pint".data l ++ altS "quart".data l ++ altS "gallon".data l ++
    altFlOz l ++ altFluid l ++ altS "clove".data l ++ altS "can".data l ++
    altS "package".data l ++ altS "pkg".data l ++ altPlain "bunch".data l ++
    altPlain "head".data l ++ altPlain "stalk".data l ++
    altPlain "stalks".data l ++ altS "sprig".data l ++
    altS "slice".data l ++ altS "piece".data l ++
    altPlain "pinch".data l ++ altPlain "dash".data l).map
      (fun p => (some p.1, p.2))) ++ [(none, l)]

/-- Candidates for `(?:of\s+)?`, matched variant first, `\s+` greedy. -/
def ofCandidates (l : List Char) : List (List Char) :=
  (match stripCI "of".data l with
   | none => []
   | some r =>
     (List.range (r.takeWhile isSpaceC).length).map
       (fun i => r.drop ((r.takeWhile isSpaceC).length - i))) ++ [l]

/-- `INGREDIENT_PATTERN.match` on a string: quantity group, `\s*`, unit
group, `\s*`, optional `of\s+`, then the mandatory item `.+` (the greedy
remainder up to a newline), searched in the regex backtracking order;
the first full success wins. -/
def patMatch (l : List Char) :
    Option (Option (List Char) × Option (List Char) × List Char) :=
  (qtyCandidates l).findSome? (fun qc =>
    (wsCandidates qc.2).findSome? (fun r2 =>
      (unitCandidates r2).findSome? (fun uc =>
        (wsCandidates uc.2).findSome? (fun r4 =>
          (ofCandidates r4).findSome? (fun r5 =>
            match r5.takeWhile (fun c => c ≠ '\n') with
            | [] => none
            | item => some (qc.1, uc.1, item))))))

/-- `RecipeScraper._parse_ingredient`.  The outer `Option` is the
exception layer: `none` is an uncaught `IndexError` escaping from
`_is_section_header_or_note`; `some none` is Python `None` (a dropped
noise line); `some (some i)` is a parsed ingredient. -/
def parse_ingredient (raw : List Char) : Option (Option Ingredient) :=
  let text := pyStrip raw
  let original := text
  match is_section_header_or_note text with
  | none => none
  | some true => some none
  | some false =>
    let text1 := clean_ingredient_text text
    match (if text1 = [] then some true
           else is_section_header_or_note text1) with
    | none => none
    | some true => some none
    | some false =>
      match patMatch text1 with
      | none => some (some (Ingredient.mk none none text1 original))
      | some (qs, us, item0) =>
        let item := clean_ingredient_text (pyStrip item0)
        let quantity :=
          match qs with
          | none => none
          | some q => parse_quantity (pyStrip q)
        some (some (Ingredient.mk quantity us item original))

/-- The executable addition is the field addition. -/
theorem qadd_eq (a b : ℚ) : qadd a b = a + b := (Rat.add_def' a b).symm

/-- The executable subtraction is the field subtraction. -/
theorem qsub_eq (a b : ℚ) : qsub a b = a - b := (Rat.sub_def' a b).symm

/-- The executable multiplication is the field multiplication. -/
theorem qmul_eq (a b : ℚ) : qmul a b = a * b := by
  rw [qmul, Rat.mul_def, Rat.normalize_eq_mkRat]

/-- The executable negation is the field negation. -/
theorem qneg_eq (a : ℚ) : qneg a = -a := by
  rw [qneg, ← Rat.neg_mkRat, Rat.mkRat_self]

/-- The executable division is the field division. -/
theorem qdiv_eq (a b : ℚ) : qdiv a b = a / b := by
  by_cases hb : b.num = 0
  · have hb0 : b = 0 := by
      rwa [Rat.num_eq_zero] at hb
    simp [qdiv, hb, hb0]
  · have hd : (a.den : ℤ) ≠ 0 := Int.natCast_ne_zero.mpr a.den_nz
    rw [qdiv, ← Rat.divInt_mul_divInt _ _ hd hb, Rat.num_divInt_den,
      ← Rat.inv_def, ← Rat.div_def]

/-- A positive count of `'('` yields membership. -/
theorem mem_of_count_open_pos (l : List Char) (h : 0 < l.count '(') :
    '(' ∈ l := by
  by_contra hm
  rw [List.count_eq_zero_of_not_mem hm] at h
  exact Nat.lt_irrefl 0 h

/-- C10: for every factor, scaling an `Ingredient` whose quantity is
present but equal to `0` yields an ingredient with no quantity (`None`),
while unit, item and original text are unchanged. -/
theorem c10_scale_zero_quantity (i : Ingredient) (factor : ℚ)
    (h : i.quantity = some 0) :
    (i.scale factor).quantity = none ∧ (i.scale factor).unit = i.unit ∧
      (i.scale factor).item = i.item ∧
      (i.scale factor).original_text = i.original_text := by
  simp [Ingredient.scale, h]

/-- Witness for `c10_scale_zero_quantity` at a concrete ingredient. -/
theorem c10_scale_zero_quantity_witness :
    ((Ingredient.mk (some 0) (some "g".data) "sugar".data
        "0 g sugar".data).scale 2).quantity = none ∧
      ((Ingredient.mk (some 0) (some "g".data) "sugar".data
        "0 g sugar".data).scale 2).unit = some "g".data ∧
      ((Ingredient.mk (some 0) (some "g".data) "sugar".data
        "0 g sugar".data).scale 2).item = "sugar".data ∧
      ((Ingredient.mk (some 0) (some "g".data) "sugar".data
        "0 g sugar".data).scale 2).original_text = "0 g sugar".data :=
  c10_scale_zero_quantity
    (Ingredient.mk (some 0) (some "g".data) "sugar".data "0 g sugar".data)
    2 rfl

/-- C8: `convert_unit` is the identity (not an error) whenever the
ingredient has no quantity or no unit, or whenever the source and target
units are not jointly convertible in a common table (in particular when
the target unit is not a recognized key). -/
theorem c8_convert_unit_unconvertible_id (i : Ingredient) (t : List Char)
    (h : i.quantity = none ∨ i.unit = none ∨
      ∀ u, i.unit = some u → ¬ jointlyConvertible (pyLower u) (pyLower t)) :
    i.convert_unit t = i := by
  obtain ⟨qo, uo, itm, ot⟩ := i
  rcases qo with _ | q
  · rcases uo with _ | u <;> rfl
  · rcases uo with _ | u
    · rfl
    · have hj : ¬ jointlyConvertible (pyLower u) (pyLower t) := by
        rcases h with h | h | h
        · exact absurd h (by simp)
        · exact absurd h (by simp)
        · exact h u rfl
      by_cases h0 : q = 0 ∨ u = []
      · simp only [Ingredient.convert_unit]
        rw [if_pos h0]
      · simp only [Ingredient.convert_unit]
        rw [if_neg h0]
        cases hvs : tableLookup VOLUME_TO_ML (pyLower u) with
        | some fs =>
          cases hvt : tableLookup VOLUME_TO_ML (pyLower t) with
          | some ft =>
            exact absurd (Or.inl ⟨by simp [hvs], by simp [hvt]⟩) hj
          | none =>
            cases hws : tableLookup WEIGHT_TO_G (pyLower u) with
            | some gs =>
              cases hwt : tableLookup WEIGHT_TO_G (pyLower t) with
              | some gt =>
                exact absurd (Or.inr ⟨by simp [hws], by simp [hwt]⟩) hj
              | none => simp [hvs, hvt, hws, hwt]
            | none => simp [hvs, hvt, hws]
        | none =>
          cases hws : tableLookup WEIGHT_TO_G (pyLower u) with
          | some gs =>
            cases hwt : tableLookup WEIGHT_TO_G (pyLower t) with
            | some gt =>
              exact absurd (Or.inr ⟨by simp [hws], by simp [hwt]⟩) hj
            | none => simp [hvs, hws, hwt]
          | none => simp [hvs, hws]

/-- Witness for `c8_convert_unit_unconvertible_id`: converting cups
(volume) to grams (weight) leaves the ingredient untouched. -/
theorem c8_convert_unit_unconvertible_id_witness :
    (Ingredient.mk (some (mkRat 2 1)) (some "cups".data) "flour".data
        []).convert_unit "g".data =
      Ingredient.mk (some (mkRat 2 1)) (some "cups".data) "flour".data [] :=
  c8_convert_unit_unconvertible_id
    (Ingredient.mk (some (mkRat 2 1)) (some "cups".data) "flour".data [])
    "g".data
    (Or.inr (Or.inr (fun u hu => by
      cases hu
      intro hj
      rcases hj with ⟨h1, h2⟩ | ⟨h1, h2⟩
      · exact absurd h2 (by decide)
      · exact absurd h1 (by decide))))

/-- A map that fixes every member of a list is the identity on it. -/
theorem map_self_of_mem {α : Type} (l : List α) (f : α → α)
    (h : ∀ x ∈ l, f x = x) : l.map f = l := by
  induction l with
  | nil => rfl
  | cons a as ih =>
    rw [List.map_cons, h a (List.mem_cons_self a as),
      ih (fun x hx => h x (List.mem_cons_of_mem a hx))]

/-- C2 counterexample: `scale(r, 1.0) = r` fails on a recipe holding an
ingredient whose quantity is present and equal to `0` (the falsy quantity
collapses to `None`). -/
theorem c2_scale_one_cex : r2zero.scale 1 ≠ r2zero := by
  intro h
  have h2 := congrArg Recipe.ingredients h
  simp [Recipe.scale, Ingredient.scale, r2zero] at h2

/-- C2 as amended: `scale(r, 1.0) = r` for every recipe in which no
present ingredient quantity equals `0` and the servings value, when
present, is nonzero. -/
theorem c2_scale_one_id (r : Recipe)
    (hi : ∀ i ∈ r.ingredients, i.quantity ≠ some 0)
    (hs : r.servings ≠ some 0) :
    r.scale 1 = r := by
  apply Recipe.ext
  · rfl
  · rcases hsv : r.servings with _ | s
    · simp [Recipe.scale, hsv]
    · have hs' : s ≠ 0 := by
        rw [hsv] at hs
        simpa using hs
      have hcast : pyInt (qmul (s : ℚ) 1) = s := by
        rw [qmul_eq, mul_one, pyInt]
        by_cases h0 : (0 : ℚ) ≤ (s : ℚ)
        · rw [if_pos h0, Int.floor_intCast]
        · rw [if_neg h0, Int.ceil_intCast]
      simp [Recipe.scale, hsv, hs', hcast]
  · rfl
  · rfl
  · rfl
  · show r.ingredients.map (fun i => i.scale 1) = r.ingredients
    apply map_self_of_mem
    intro a ha
    obtain ⟨qo, uu, itm, ot⟩ := a
    rcases qo with _ | q
    · rfl
    · have hq : q ≠ 0 := by simpa using hi _ ha
      simp [Ingredient.scale, hq, qmul_eq]
  · rfl
  · rfl

/-- Witness for `c2_scale_one_id` at a concrete recipe. -/
theorem c2_scale_one_id_witness : r2w.scale 1 = r2w :=
  c2_scale_one_id r2w
    (by
      intro i hmem
      rcases List.mem_cons.mp hmem with rfl | hmem2
      · decide
      · rcases List.mem_cons.mp hmem2 with rfl | hmem3
        · decide
        · cases hmem3)
    (by simp [r2w])

/-- C3 counterexample: scaling 4 servings by the positive factor `1/10`
produces `servings = 0`, which is present but not a positive integer, so
the data-model invariant is not preserved. -/
theorem c3_scale_servings_cex : (r3cex.scale (mkRat 1 10)).servings = some 0 := by
  rfl

/-- C3 as amended: for a present positive servings value and factor > 0,
the new servings is `int(servings * factor)` (truncation); the positivity
invariant is preserved exactly when `servings * factor ≥ 1`. -/
theorem c3_scale_servings (r : Recipe) (s : ℤ) (factor : ℚ)
    (hs : r.servings = some s) (hpos : 0 < s) (hf : 0 < factor)
    (h1 : 1 ≤ (s : ℚ) * factor) :
    (r.scale factor).servings = some (pyInt ((s : ℚ) * factor)) ∧
      0 < pyInt ((s : ℚ) * factor) := by
  have hne : s ≠ 0 := hpos.ne'
  constructor
  · simp [Recipe.scale, hs, hne, qmul_eq]
  · rw [pyInt, if_pos (le_trans zero_le_one h1)]
    have hfl : (1 : ℤ) ≤ ⌊(s : ℚ) * factor⌋ := by
      rw [Int.le_floor]
      exact_mod_cast h1
    omega

/-- Witness for `c3_scale_servings` at servings 4 and factor `1/2`. -/
theorem c3_scale_servings_witness :
    (r3cex.scale (1/2)).servings = some (pyInt ((4 : ℚ) * (1/2))) ∧
      0 < pyInt ((4 : ℚ) * (1/2)) :=
  c3_scale_servings r3cex 4 (1/2) rfl (by norm_num) (by norm_num) (by norm_num)

/-- C4 counterexample: `"½-2"` contains a `-` away from position 0, yet
the range regex (which requires digits) fails, the token falls through to
the accumulation branch, and the total `½ - 2 < 0` yields no quantity at
all — not the arithmetic mean the claim demands. -/
theorem c4_parse_quantity_range_cex : parse_quantity "½-2".data = none := rfl

/-- C4 as amended: the range interpretation applies exactly when the
stripped token starts with `digits[-]digits` (the regex
`(\d+(?:\.\d+)?)\s*-\s*(\d+(?:\.\d+)?)`); then the mean of the two numbers
is returned. -/
theorem c4_parse_quantity_range (l : List Char) (a b : ℚ)
    (hd : l.contains '-' = true) (hh : l.head? ≠ some '-')
    (hm : matchRange (pyStrip l) = some (a, b)) :
    parse_quantity l = some ((a + b) / 2) := by
  have hne : l ≠ [] := by
    intro h
    subst h
    simp at hd
  have h2 : (mkRat 2 1 : ℚ) = 2 := by
    rw [Rat.mkRat_eq_div]
    norm_num
  simp only [parse_quantity]
  rw [if_neg hne, if_pos ⟨hd, hh⟩, hm]
  show some (qdiv (qadd a b) (mkRat 2 1)) = some ((a + b) / 2)
  rw [qdiv_eq, qadd_eq, h2]

/-- Witness for `c4_parse_quantity_range` on the token `"1-2"`. -/
theorem c4_parse_quantity_range_witness :
    parse_quantity "1-2".data = some ((mkRat 1 1 + mkRat 2 1) / 2) :=
  c4_parse_quantity_range "1-2".data (mkRat 1 1) (mkRat 2 1)
    (by decide) (by decide) rfl

/-- All of `a` satisfies `p` and `x` does not: `takeWhile` stops at `x`. -/
theorem takeWhile_append_run (p : Char → Bool) (a : List Char) (x : Char)
    (t : List Char) (ha : ∀ c ∈ a, p c = true) (hx : p x = false) :
    (a ++ x :: t).takeWhile p = a := by
  induction a with
  | nil => simp [List.takeWhile_cons, hx]
  | cons c cs ih =>
    have hc : p c = true := ha c (List.mem_cons_self c cs)
    simp [List.takeWhile_cons, hc,
      ih (fun d hd => ha d (List.mem_cons_of_mem c hd))]

/-- All of `a` satisfies `p` and `x` does not: `dropWhile` stops at `x`. -/
theorem dropWhile_append_run (p : Char → Bool) (a : List Char) (x : Char)
    (t : List Char) (ha : ∀ c ∈ a, p c = true) (hx : p x = false) :
    (a ++ x :: t).dropWhile p = x :: t := by
  induction a with
  | nil => simp [List.dropWhile_cons, hx]
  | cons c cs ih =>
    have hc : p c = true := ha c (List.mem_cons_self c cs)
    simp [List.dropWhile_cons, hc,
      ih (fun d hd => ha d (List.mem_cons_of_mem c hd))]

/-- A duration component hits when a nonempty digit run is followed by
its letter. -/
theorem durComponent_hit (u : Char) (ds rest : List Char)
    (hne : ds ≠ []) (hd : ∀ c ∈ ds, c.isDigit = true)
    (hu : u.isDigit = false) :
    durComponent u (ds ++ u :: rest) = (some ds, rest) := by
  obtain ⟨d, ds', rfl⟩ : ∃ d ds', ds = d :: ds' := by
    cases ds with
    | nil => exact absurd rfl hne
    | cons d ds' => exact ⟨d, ds', rfl⟩
  simp only [durComponent, takeWhile_append_run Char.isDigit _ _ _ hd hu,
    dropWhile_append_run Char.isDigit _ _ _ hd hu]
  simp

/-- A duration component misses on the empty string. -/
theorem durComponent_nil (u : Char) : durComponent u [] = (none, []) := rfl

/-- A duration component misses when the string starts with a non-digit. -/
theorem durComponent_head (u x : Char) (t : List Char)
    (hx : x.isDigit = false) :
    durComponent u (x :: t) = (none, x :: t) := by
  simp only [durComponent]
  rw [List.takeWhile_cons, List.dropWhile_cons]
  simp [hx]

/-- A duration component misses when the digit run is followed by a
different letter. -/
theorem durComponent_wrong (u : Char) (ds : List Char) (x : Char)
    (t : List Char) (hne : ds ≠ []) (hd : ∀ c ∈ ds, c.isDigit = true)
    (hx : x.isDigit = false) (hxu : x ≠ u) :
    durComponent u (ds ++ x :: t) = (none, ds ++ x :: t) := by
  obtain ⟨d, ds', rfl⟩ : ∃ d ds', ds = d :: ds' := by
    cases ds with
    | nil => exact absurd rfl hne
    | cons d ds' => exact ⟨d, ds', rfl⟩
  simp only [durComponent, takeWhile_append_run Char.isDigit _ _ _ hd hx,
    dropWhile_append_run Char.isDigit _ _ _ hd hx]
  simp [hxu]

/-- C5 counterexample: the input `"PT"` is non-empty and unparseable as a
duration with components, yet the parser returns `None` instead of the
verbatim string the claim demands (the regex matches with all three
components absent, leaving an empty part list). -/
theorem c5_parse_duration_cex : parse_duration (some "PT".data) = none := rfl

/-- C5 as amended: every `PT#H#M#S` string with at least one component is
compacted to `"#h #m #s"`; every non-empty string that does not begin with
`"PT"` is returned verbatim; but a string that begins with `"PT"` and
yields no component (such as `"PT5D"`, whose `D` component the regex does
not know) maps to `None`, not to itself. -/
theorem c5_parse_duration_amended :
    (∀ hs ms ss : List Char,
        (∀ c ∈ hs, c.isDigit = true) → (∀ c ∈ ms, c.isDigit = true) →
        (∀ c ∈ ss, c.isDigit = true) → ¬(hs = [] ∧ ms = [] ∧ ss = []) →
        parse_duration (some (mkISO hs ms ss)) =
          some (isoCompact hs ms ss)) ∧
    (∀ l : List Char, l ≠ [] → (∀ rest, l ≠ 'P' :: 'T' :: rest) →
        parse_duration (some l) = some l) ∧
    parse_duration (some "PT5D".data) = none := by
  refine ⟨?_, ?_, rfl⟩
  · intro hs ms ss h1 h2 h3 hne
    have hH : ('H' : Char).isDigit = false := by decide
    have hM : ('M' : Char).isDigit = false := by decide
    have hS : ('S' : Char).isDigit = false := by decide
    by_cases e1 : hs = [] <;> by_cases e2 : ms = [] <;> by_cases e3 : ss = []
    · exact absurd ⟨e1, e2, e3⟩ hne
    · subst e1; subst e2
      simp only [mkISO, isoCompact, if_neg e3, List.append_assoc,
        List.cons_append, List.nil_append, eq_self_iff_true, if_true]
      simp only [parse_duration]
      rw [durComponent_wrong 'H' ss 'S' [] e3 h3 hS (by decide)]
      dsimp only
      rw [durComponent_wrong 'M' ss 'S' [] e3 h3 hS (by decide)]
      dsimp only
      rw [durComponent_hit 'S' ss [] e3 h3 hS]
      simp
    · subst e1; subst e3
      simp only [mkISO, isoCompact, if_neg e2, List.append_assoc,
        List.cons_append, List.nil_append, List.append_nil,
        eq_self_iff_true, if_true]
      simp only [parse_duration]
      rw [durComponent_wrong 'H' ms 'M' [] e2 h2 hM (by decide)]
      dsimp only
      rw [durComponent_hit 'M' ms [] e2 h2 hM]
      simp [durComponent_nil]
    · subst e1
      simp only [mkISO, isoCompact, if_neg e2, if_neg e3, List.append_assoc,
        List.cons_append, List.nil_append, eq_self_iff_true, if_true]
      simp only [parse_duration]
      rw [durComponent_wrong 'H' ms 'M' (ss ++ ['S']) e2 h2 hM (by decide)]
      dsimp only
      rw [durComponent_hit 'M' ms _ e2 h2 hM]
      dsimp only
      rw [durComponent_hit 'S' ss [] e3 h3 hS]
      simp
    · subst e2; subst e3
      simp only [mkISO, isoCompact, if_neg e1, List.append_assoc,
        List.cons_append, List.nil_append, List.append_nil,
        eq_self_iff_true, if_true]
      simp only [parse_duration]
      rw [durComponent_hit 'H' hs [] e1 h1 hH]
      simp [durComponent_nil]
    · subst e2
      simp only [mkISO, isoCompact, if_neg e1, if_neg e3, List.append_assoc,
        List.cons_append, List.nil_append, eq_self_iff_true, if_true]
      simp only [parse_duration]
      rw [durComponent_hit 'H' hs _ e1 h1 hH]
      dsimp only
      rw [durComponent_wrong 'M' ss 'S' [] e3 h3 hS (by decide)]
      dsimp only
      rw [durComponent_hit 'S' ss [] e3 h3 hS]
      simp
    · subst e3
      simp only [mkISO, isoCompact, if_neg e1, if_neg e2, List.append_assoc,
        List.cons_append, List.nil_append, List.append_nil,
        eq_self_iff_true, if_true]
      simp only [parse_duration]
      rw [durComponent_hit 'H' hs _ e1 h1 hH]
      dsimp only
      rw [durComponent_hit 'M' ms [] e2 h2 hM]
      simp [durComponent_nil]
    · simp only [mkISO, isoCompact, if_neg e1, if_neg e2, if_neg e3,
        List.append_assoc, List.cons_append, List.nil_append]
      simp only [parse_duration]
      rw [durComponent_hit 'H' hs _ e1 h1 hH]
      dsimp only
      rw [durComponent_hit 'M' ms _ e2 h2 hM]
      dsimp only
      rw [durComponent_hit 'S' ss [] e3 h3 hS]
      simp
  · intro l hne h
    simp only [parse_duration]
    rw [if_neg hne]

/-- Witness for `c5_parse_duration_amended`: `"PT1H30M"` compacts to
`"1h 30m"` and `"45 min"` (no `PT` prefix) passes through verbatim. -/
theorem c5_parse_duration_amended_witness :
    parse_duration (some "PT1H30M".data) = some "1h 30m".data ∧
      parse_duration (some "45 min".data) = some "45 min".data := by
  constructor
  · have h := c5_parse_duration_amended.1 ['1'] ['3', '0'] []
      (by decide) (by decide) (by decide) (by decide)
    exact h.trans (by decide)
  · exact c5_parse_duration_amended.2.1 "45 min".data (by decide)
      (fun rest heq => by
        have h4 : '4' = 'P' := by injection heq
        exact absurd h4 (by decide))

/-- Round-half-to-even lands within one half of its argument. -/
theorem roundHalfEven_sub_abs (q : ℚ) :
    |(roundHalfEven q : ℚ) - q| ≤ 1/2 := by
  have hhalf : (mkRat 1 2 : ℚ) = 1/2 := by
    rw [Rat.mkRat_eq_div]
    norm_num
  have hfl : (⌊q⌋ : ℚ) ≤ q := Int.floor_le q
  have hlt : q < ⌊q⌋ + 1 := Int.lt_floor_add_one q
  rw [roundHalfEven]
  split_ifs with h1 h2 h3 <;>
    rw [qsub_eq, hhalf] at * <;>
    rw [abs_le] <;>
    constructor <;>
    push_cast <;>
    linarith

/-- `round3` lands within `1/2000` of its argument. -/
theorem round3_sub_abs (q : ℚ) : |round3 q - q| ≤ 1/2000 := by
  have h1k : (mkRat 1000 1 : ℚ) = 1000 := by
    rw [Rat.mkRat_eq_div]
    norm_num
  have hb := roundHalfEven_sub_abs (q * 1000)
  rw [round3, qdiv_eq, qmul_eq, h1k]
  have hsplit : (roundHalfEven (q * 1000) : ℚ) / 1000 - q =
      ((roundHalfEven (q * 1000) : ℚ) - q * 1000) / 1000 := by
    ring
  rw [hsplit, abs_div, abs_of_pos (by norm_num : (0:ℚ) < 1000)]
  calc |(roundHalfEven (q * 1000) : ℚ) - q * 1000| / 1000
      ≤ (1/2) / 1000 := by
        exact (div_le_div_iff_of_pos_right (by norm_num : (0:ℚ) < 1000)).mpr hb
    _ = 1/2000 := by norm_num

/-- `convert_unit` in the case where both units sit in the volume table:
the quantity becomes `round(qty * factor(source) / factor(target), 3)` and
the unit label becomes the target as requested. -/
theorem convert_unit_volume (q : ℚ) (u tu itm ot : List Char) (fs ft : ℚ)
    (hq0 : q ≠ 0) (hu0 : u ≠ [])
    (hfs : tableLookup VOLUME_TO_ML (pyLower u) = some fs)
    (hft : tableLookup VOLUME_TO_ML (pyLower tu) = some ft) :
    (Ingredient.mk (some q) (some u) itm ot).convert_unit tu =
      Ingredient.mk (some (round3 (qdiv (qmul q fs) ft))) (some tu) itm ot := by
  simp only [Ingredient.convert_unit]
  rw [if_neg (not_or.mpr ⟨hq0, hu0⟩), hfs, hft]

/-- C7: converting a volume-table ingredient to millilitres and then to
cups agrees with converting it to cups directly, up to the slack of the
two three-decimal roundings (at most `11/10000 = 0.0011`). -/
theorem c7_convert_round_trip (i : Ingredient) (q : ℚ) (u : List Char)
    (fs : ℚ) (hq : i.quantity = some q) (hu : i.unit = some u)
    (hfs : tableLookup VOLUME_TO_ML (pyLower u) = some fs) :
    ∃ q2 q3,
      ((i.convert_unit "ml".data).convert_unit "cups".data).quantity =
          some q2 ∧
        (i.convert_unit "cups".data).quantity = some q3 ∧
        |q2 - q3| ≤ 11/10000 := by
  obtain ⟨qo, uo, itm, ot⟩ := i
  have hq' : qo = some q := hq
  have hu' : uo = some u := hu
  subst hq'
  subst hu'
  have hu0 : u ≠ [] := by
    intro h
    subst h
    exact Option.noConfusion (hfs : (none : Option ℚ) = some fs)
  have hml : tableLookup VOLUME_TO_ML (pyLower "ml".data) =
      some (mkRat 1 1) := rfl
  have hcup : tableLookup VOLUME_TO_ML (pyLower "cups".data) =
      some (mkRat 236588 1000) := rfl
  have hfc : (mkRat 236588 1000 : ℚ) = 236588/1000 := by
    rw [Rat.mkRat_eq_div]
    norm_num
  have hone : (mkRat 1 1 : ℚ) = 1 := by
    rw [Rat.mkRat_eq_div]
    norm_num
  by_cases hq0 : q = 0
  · subst hq0
    refine ⟨0, 0, ?_, ?_, by norm_num⟩
    · have h1 : (Ingredient.mk (some 0) (some u) itm ot).convert_unit
          "ml".data = Ingredient.mk (some 0) (some u) itm ot := by
        simp [Ingredient.convert_unit]
      rw [h1]
      simp [Ingredient.convert_unit]
    · simp [Ingredient.convert_unit]
  · rw [convert_unit_volume q u "ml".data itm ot fs (mkRat 1 1) hq0 hu0
      hfs hml]
    rw [convert_unit_volume q u "cups".data itm ot fs (mkRat 236588 1000)
      hq0 hu0 hfs hcup]
    have ha3 : round3 (qdiv (qmul q fs) (mkRat 236588 1000)) =
        round3 (q * fs / (236588/1000)) := by
      rw [qdiv_eq, qmul_eq, hfc]
    set a : ℚ := q * fs
    set fc : ℚ := 236588/1000
    have hfcpos : (0:ℚ) < fc := by norm_num [fc]
    set b1 : ℚ := round3 (qdiv (qmul q fs) (mkRat 1 1))
    have hb1 : b1 = round3 a := by
      rw [show b1 = round3 (qdiv (qmul q fs) (mkRat 1 1)) from rfl,
        qdiv_eq, qmul_eq, hone, div_one]
    have hb1a : |b1 - a| ≤ 1/2000 := by
      rw [hb1]
      exact round3_sub_abs a
    set b3 : ℚ := round3 (a / fc)
    have hb3 : |b3 - a / fc| ≤ 1/2000 := round3_sub_abs (a / fc)
    have hmid : |b1 / fc - a / fc| ≤ 1/10000 := by
      rw [div_sub_div_same, abs_div, abs_of_pos hfcpos]
      calc |b1 - a| / fc ≤ (1/2000) / fc :=
            (div_le_div_iff_of_pos_right hfcpos).mpr hb1a
        _ ≤ 1/10000 := by
            rw [div_le_iff₀ hfcpos]
            norm_num [fc]
    by_cases hb10 : b1 = 0
    · have h2 : (Ingredient.mk (some b1) (some "ml".data) itm ot).convert_unit
          "cups".data = Ingredient.mk (some b1) (some "ml".data) itm ot := by
        simp [Ingredient.convert_unit, hb10]
      rw [h2, ha3]
      refine ⟨b1, b3, rfl, rfl, ?_⟩
      have h0 : |a / fc| ≤ 1/10000 := by
        rw [hb10] at hmid
        simpa using hmid
      calc |b1 - b3| = |b3| := by rw [hb10, zero_sub, abs_neg]
        _ = |(b3 - a / fc) + a / fc| := by ring_nf
        _ ≤ |b3 - a / fc| + |a / fc| := abs_add _ _
        _ ≤ 1/2000 + 1/10000 := add_le_add hb3 h0
        _ ≤ 11/10000 := by norm_num
    · rw [convert_unit_volume b1 "ml".data "cups".data itm ot (mkRat 1 1)
        (mkRat 236588 1000) hb10 (by decide) hml hcup]
      rw [ha3]
      set b2 : ℚ := round3 (qdiv (qmul b1 (mkRat 1 1)) (mkRat 236588 1000))
      have hb2 : b2 = round3 (b1 / fc) := by
        rw [show b2 = round3 (qdiv (qmul b1 (mkRat 1 1)) (mkRat 236588 1000))
          from rfl, qdiv_eq, qmul_eq, hone, hfc, mul_one]
      have hb2b : |b2 - b1 / fc| ≤ 1/2000 := by
        rw [hb2]
        exact round3_sub_abs (b1 / fc)
      refine ⟨b2, b3, rfl, rfl, ?_⟩
      calc |b2 - b3| ≤ |b2 - b1 / fc| + |b1 / fc - b3| := abs_sub_le _ _ _
        _ ≤ |b2 - b1 / fc| + (|b1 / fc - a / fc| + |a / fc - b3|) := by
            have := abs_sub_le (b1 / fc) (a / fc) b3
            linarith
        _ ≤ 1/2000 + (1/10000 + 1/2000) := by
            have h3' : |a / fc - b3| ≤ 1/2000 := by
              rw [abs_sub_comm]
              exact hb3
            exact add_le_add hb2b (add_le_add hmid h3')
        _ ≤ 11/10000 := by norm_num

/-- Witness for `c7_convert_round_trip` at 2 cups of flour. -/
theorem c7_convert_round_trip_witness :
    ∃ q2 q3,
      (((Ingredient.mk (some (mkRat 2 1)) (some "cups".data) "flour".data
            []).convert_unit "ml".data).convert_unit "cups".data).quantity =
          some q2 ∧
        ((Ingredient.mk (some (mkRat 2 1)) (some "cups".data) "flour".data
            []).convert_unit "cups".data).quantity = some q3 ∧
        |q2 - q3| ≤ 11/10000 :=
  c7_convert_round_trip
    (Ingredient.mk (some (mkRat 2 1)) (some "cups".data) "flour".data [])
    (mkRat 2 1) "cups".data (mkRat 236588 1000) rfl rfl rfl

/-- The first pass of the balancer produces a scan-clean string. -/
theorem balScan_scanOk (l : List Char) (d : ℕ) :
    scanOk (balScan l d) d = true := by
  induction l generalizing d with
  | nil => rfl
  | cons c cs ih =>
    by_cases h1 : c = '('
    · simp only [balScan, if_pos h1, scanOk, ih]
    · by_cases h2 : c = ')'
      · by_cases h3 : 0 < d
        · simp only [balScan, if_neg h1, if_pos h2, h3, if_pos]
          simp only [scanOk, if_neg h1, if_pos h2, ih, decide_eq_true h3,
            Bool.true_and]
        · simp only [balScan, if_neg h1, if_pos h2, if_neg h3, ih]
      · simp only [balScan, if_neg h1, if_neg h2, scanOk, ih]

/-- The first pass of the balancer keeps a scan-clean string unchanged. -/
theorem balScan_id (l : List Char) (d : ℕ) (h : scanOk l d = true) :
    balScan l d = l := by
  induction l generalizing d with
  | nil => rfl
  | cons c cs ih =>
    by_cases h1 : c = '('
    · simp only [scanOk, if_pos h1] at h
      simp only [balScan, if_pos h1, ih (d + 1) h]
    · by_cases h2 : c = ')'
      · simp only [scanOk, if_neg h1, if_pos h2, Bool.and_eq_true,
          decide_eq_true_eq] at h
        simp only [balScan, if_neg h1, if_pos h2, if_pos h.1, ih (d - 1) h.2]
      · simp only [scanOk, if_neg h1, if_neg h2] at h
        simp only [balScan, if_neg h1, if_neg h2, ih d h]

/-- Scan-cleanliness of a concatenation restricts to its first part. -/
theorem scanOk_head (a b : List Char) (d : ℕ)
    (h : scanOk (a ++ b) d = true) : scanOk a d = true := by
  induction a generalizing d with
  | nil => rfl
  | cons c cs ih =>
    by_cases h1 : c = '('
    · simp only [List.cons_append, scanOk, if_pos h1] at h ⊢
      exact ih (d + 1) h
    · by_cases h2 : c = ')'
      · simp only [List.cons_append, scanOk, if_neg h1, if_pos h2,
          Bool.and_eq_true] at h ⊢
        exact ⟨h.1, ih (d - 1) h.2⟩
      · simp only [List.cons_append, scanOk, if_neg h1, if_neg h2] at h ⊢
        exact ih d h

/-- A scan-clean string closes at most `d` more than it opens. -/
theorem scanOk_counts (a : List Char) (d : ℕ) (h : scanOk a d = true) :
    a.count ')' ≤ d + a.count '(' := by
  induction a generalizing d with
  | nil => simp
  | cons c cs ih =>
    by_cases h1 : c = '('
    · simp only [scanOk, if_pos h1] at h
      have hrec := ih (d + 1) h
      have e1 : (c :: cs).count '(' = cs.count '(' + 1 := by
        rw [h1, List.count_cons_self]
      have e2 : (c :: cs).count ')' = cs.count ')' := by
        rw [h1]
        exact List.count_cons_of_ne (by decide) _
      rw [e1, e2]
      omega
    · by_cases h2 : c = ')'
      · simp only [scanOk, if_neg h1, if_pos h2, Bool.and_eq_true,
          decide_eq_true_eq] at h
        have hrec := ih (d - 1) h.2
        have hd := h.1
        have e1 : (c :: cs).count '(' = cs.count '(' := by
          rw [h2]
          exact List.count_cons_of_ne (by decide) _
        have e2 : (c :: cs).count ')' = cs.count ')' + 1 := by
          rw [h2, List.count_cons_self]
        rw [e1, e2]
        omega
      · simp only [scanOk, if_neg h1, if_neg h2] at h
        have hrec := ih d h
        have e1 : (c :: cs).count '(' = cs.count '(' :=
          List.count_cons_of_ne (Ne.symm h1) _
        have e2 : (c :: cs).count ')' = cs.count ')' :=
          List.count_cons_of_ne (Ne.symm h2) _
        rw [e1, e2]
        omega

/-- A string with no opening parenthesis and at most `d` closers is
scan-clean at depth `d`. -/
theorem scanOk_all_close (b : List Char) (d : ℕ) (hb : '(' ∉ b)
    (hc : b.count ')' ≤ d) : scanOk b d = true := by
  induction b generalizing d with
  | nil => rfl
  | cons c cs ih =>
    have h1 : ¬ c = '(' := fun h => hb (h ▸ List.mem_cons_self c cs)
    have hbcs : '(' ∉ cs := fun h => hb (List.mem_cons_of_mem c h)
    by_cases h2 : c = ')'
    · have hcnt : cs.count ')' + 1 ≤ d := by
        have e2 : (c :: cs).count ')' = cs.count ')' + 1 := by
          rw [h2, List.count_cons_self]
        rw [e2] at hc
        exact hc
      simp only [scanOk, if_neg h1, if_pos h2, Bool.and_eq_true,
        decide_eq_true_eq]
      exact ⟨by omega, ih (d - 1) hbcs (by omega)⟩
    · have hcnt : cs.count ')' ≤ d := by
        have e2 : (c :: cs).count ')' = cs.count ')' :=
          List.count_cons_of_ne (Ne.symm h2) _
        rw [e2] at hc
        exact hc
      simp only [scanOk, if_neg h1, if_neg h2]
      exact ih d hbcs hcnt

/-- Scan-cleanliness composes across a concatenation when the second part
is clean at the depth the first part reaches. -/
theorem scanOk_append_tail (a b : List Char) (d : ℕ)
    (ha : scanOk a d = true)
    (hb : scanOk b (d + a.count '(' - a.count ')') = true) :
    scanOk (a ++ b) d = true := by
  induction a generalizing d with
  | nil => simpa using hb
  | cons c cs ih =>
    by_cases h1 : c = '('
    · simp only [scanOk, if_pos h1] at ha
      simp only [List.cons_append, scanOk, if_pos h1]
      apply ih (d + 1) ha
      have e1 : (c :: cs).count '(' = cs.count '(' + 1 := by
        rw [h1, List.count_cons_self]
      have e2 : (c :: cs).count ')' = cs.count ')' := by
        rw [h1]
        exact List.count_cons_of_ne (by decide) _
      rw [e1, e2] at hb
      have harg : d + 1 + cs.count '(' - cs.count ')' =
          d + (cs.count '(' + 1) - cs.count ')' := by omega
      rw [harg]
      exact hb
    · by_cases h2 : c = ')'
      · simp only [scanOk, if_neg h1, if_pos h2, Bool.and_eq_true,
          decide_eq_true_eq] at ha
        simp only [List.cons_append, scanOk, if_neg h1, if_pos h2,
          Bool.and_eq_true, decide_eq_true_eq]
        refine ⟨ha.1, ih (d - 1) ha.2 ?_⟩
        have e1 : (c :: cs).count '(' = cs.count '(' := by
          rw [h2]
          exact List.count_cons_of_ne (by decide) _
        have e2 : (c :: cs).count ')' = cs.count ')' + 1 := by
          rw [h2, List.count_cons_self]
        rw [e1, e2] at hb
        have hd := ha.1
        have harg : d - 1 + cs.count '(' - cs.count ')' =
            d + cs.count '(' - (cs.count ')' + 1) := by omega
        rw [harg]
        exact hb
      · simp only [scanOk, if_neg h1, if_neg h2] at ha
        simp only [List.cons_append, scanOk, if_neg h1, if_neg h2]
        apply ih d ha
        have e1 : (c :: cs).count '(' = cs.count '(' :=
          List.count_cons_of_ne (Ne.symm h1) _
        have e2 : (c :: cs).count ')' = cs.count ')' :=
          List.count_cons_of_ne (Ne.symm h2) _
        rw [e1, e2] at hb
        exact hb

/-- `removeFirstOpen` deletes the marked `'('` when none precedes it. -/
theorem removeFirstOpen_append (x y : List Char) (hx : '(' ∉ x) :
    removeFirstOpen (x ++ '(' :: y) = x ++ y := by
  induction x with
  | nil => simp [removeFirstOpen]
  | cons c cs ih =>
    have h1 : ¬ c = '(' := fun h => hx (h ▸ List.mem_cons_self c cs)
    have hcs : '(' ∉ cs := fun h => hx (List.mem_cons_of_mem c h)
    simp only [List.cons_append, removeFirstOpen, if_neg h1]
    exact congrArg (fun t => c :: t) (ih hcs)

/-- `removeLastOpen` deletes the last `'('` of the list. -/
theorem removeLastOpen_append (a b : List Char) (hb : '(' ∉ b) :
    removeLastOpen (a ++ '(' :: b) = a ++ b := by
  have hrev : (a ++ '(' :: b).reverse = b.reverse ++ '(' :: a.reverse := by
    simp
  rw [removeLastOpen, hrev,
    removeFirstOpen_append b.reverse a.reverse (fun h => hb (List.mem_reverse.mp h))]
  simp

/-- A list containing `'('` splits around its last occurrence. -/
theorem open_decomp (l : List Char) (h : '(' ∈ l) :
    ∃ a b, l = a ++ '(' :: b ∧ '(' ∉ b := by
  induction l with
  | nil => cases h
  | cons c cs ih =>
    by_cases hcs : '(' ∈ cs
    · obtain ⟨a, b, heq, hb⟩ := ih hcs
      exact ⟨c :: a, b, by rw [heq]; rfl, hb⟩
    · have hc : c = '(' := by
        cases h with
        | head => rfl
        | tail _ h' => exact absurd h' hcs
      exact ⟨[], cs, by rw [hc]; rfl, hcs⟩

/-- The deletion loop preserves scan-cleanliness. -/
theorem fixOpensF_scanOk (fuel : ℕ) (l : List Char)
    (h : scanOk l 0 = true) : scanOk (fixOpensF fuel l) 0 = true := by
  induction fuel generalizing l with
  | zero => exact h
  | succ f ih =>
    simp only [fixOpensF]
    by_cases hcnt : l.count ')' < l.count '('
    · rw [if_pos hcnt]
      apply ih
      have hmem : '(' ∈ l :=
        mem_of_count_open_pos l (Nat.lt_of_le_of_lt (Nat.zero_le _) hcnt)
      obtain ⟨a, b, rfl, hb⟩ := open_decomp l hmem
      rw [removeLastOpen_append a b hb]
      have hA : scanOk a 0 = true := scanOk_head a ('(' :: b) 0 h
      have hcb : a.count ')' ≤ a.count '(' := by
        simpa using scanOk_counts a 0 hA
      have hcounts : (a ++ '(' :: b).count ')' < (a ++ '(' :: b).count '(' :=
        hcnt
      have hca : (a ++ '(' :: b).count '(' = a.count '(' + (b.count '(' + 1) := by
        rw [List.count_append, List.count_cons_self]
      have hcb' : (a ++ '(' :: b).count ')' = a.count ')' + b.count ')' := by
        rw [List.count_append]
        have : ('(' :: b).count ')' = b.count ')' :=
          List.count_cons_of_ne (by decide) _
        omega
      have hbz : b.count '(' = 0 := List.count_eq_zero_of_not_mem hb
      have hbc : b.count ')' ≤ a.count '(' - a.count ')' := by
        rw [hca, hcb', hbz] at hcounts
        omega
      exact scanOk_append_tail a b 0 hA
        (scanOk_all_close b _ hb (by simpa using hbc))
    · rw [if_neg hcnt]
      exact h

/-- With fuel at least the surplus of openers, the deletion loop ends with
no surplus: the `while` condition is false at the returned value, so the
fuelled model is exact. -/
theorem fixOpensF_exit (fuel : ℕ) (l : List Char)
    (hfuel : l.count '(' - l.count ')' ≤ fuel) :
    (fixOpensF fuel l).count '(' ≤ (fixOpensF fuel l).count ')' := by
  induction fuel generalizing l with
  | zero =>
    show l.count '(' ≤ l.count ')'
    omega
  | succ f ih =>
    simp only [fixOpensF]
    by_cases hcnt : l.count ')' < l.count '('
    · rw [if_pos hcnt]
      apply ih
      have hmem : '(' ∈ l :=
        mem_of_count_open_pos l (Nat.lt_of_le_of_lt (Nat.zero_le _) hcnt)
      obtain ⟨a, b, rfl, hb⟩ := open_decomp l hmem
      rw [removeLastOpen_append a b hb]
      have hca : (a ++ '(' :: b).count '(' = (a ++ b).count '(' + 1 := by
        rw [List.count_append, List.count_append, List.count_cons_self]
        omega
      have hcb : (a ++ '(' :: b).count ')' = (a ++ b).count ')' := by
        rw [List.count_append, List.count_append]
        have : ('(' :: b).count ')' = b.count ')' :=
          List.count_cons_of_ne (by decide) _
        omega
      rw [hca, hcb] at hfuel
      omega
    · rw [if_neg hcnt]
      omega

/-- With the loop condition already false, the deletion loop is a no-op. -/
theorem fixOpensF_id (fuel : ℕ) (l : List Char)
    (h : ¬ l.count ')' < l.count '(') : fixOpensF fuel l = l := by
  cases fuel with
  | zero => rfl
  | succ f => simp only [fixOpensF, if_neg h]

/-- Exactness note for the fuelled loop: the returned string never retains
a surplus of openers, i.e. the Python `while` condition has become false. -/
theorem fixOpens_exit (l : List Char) :
    (fixOpens l).count '(' ≤ (fixOpens l).count ')' :=
  fixOpensF_exit (l.count '(') l (Nat.sub_le _ _)

/-- C6: parenthesis balancing is idempotent —
`balance(balance(s)) = balance(s)` for every string `s`. -/
theorem c6_balance_parens_idempotent (l : List Char) :
    balance_parens (balance_parens l) = balance_parens l := by
  have hm : scanOk (balScan l 0) 0 = true := balScan_scanOk l 0
  have hr1 : scanOk (balance_parens l) 0 = true := fixOpensF_scanOk _ _ hm
  have hr2 : (balance_parens l).count '(' ≤ (balance_parens l).count ')' :=
    fixOpens_exit (balScan l 0)
  rw [balance_parens, balScan_id _ 0 hr1, fixOpens,
    fixOpensF_id _ _ (by omega)]

/-- C1: the ingredient-line parser is not total.  On the input `"(a"` —
a string beginning with a parenthesis that is not one of the recognised
note openers — `_is_section_header_or_note` reaches `main_part[0]` with
`main_part` empty and raises `IndexError` instead of classifying the line;
the exception escapes `_parse_ingredient` (the model's outer `none`). -/
theorem c1_parse_ingredient_crash : parse_ingredient "(a".data = none := rfl

/-- C9: the spec's example results.  `"RASPBERRY COULIS"` is Noise;
`"2 cups flour"` parses to 2 / cups / flour; `"1 1/2 tsp salt"` has
quantity 1.5; `"1-2 ripe bananas"` has quantity 1.5 (range mean) and item
`"ripe bananas"`; `parse_quantity` maps `"½"` to 0.5, `"2 3/4"` to 2.75
and `"abc"` to no quantity. -/
theorem c9_spec_examples :
    parse_ingredient "RASPBERRY COULIS".data = some none ∧
    parse_ingredient "2 cups flour".data =
      some (some (Ingredient.mk (some 2) (some "cups".data) "flour".data
        "2 cups flour".data)) ∧
    parse_ingredient "1 1/2 tsp salt".data =
      some (some (Ingredient.mk (some (3/2)) (some "tsp".data) "salt".data
        "1 1/2 tsp salt".data)) ∧
    parse_ingredient "1-2 ripe bananas".data =
      some (some (Ingredient.mk (some (3/2)) none "ripe bananas".data
        "1-2 ripe bananas".data)) ∧
    parse_quantity "½".data = some (1/2) ∧
    parse_quantity "2 3/4".data = some (11/4) ∧
    parse_quantity "abc".data = none := by
  have h2 : (2 : ℚ) = mkRat 2 1 := by
    rw [Rat.mkRat_eq_div]
    norm_num
  have h32 : (3/2 : ℚ) = mkRat 3 2 := by
    rw [Rat.mkRat_eq_div]
    norm_num
  have h12 : (1/2 : ℚ) = mkRat 1 2 := by
    rw [Rat.mkRat_eq_div]
    norm_num
  have h114 : (11/4 : ℚ) = mkRat 11 4 := by
    rw [Rat.mkRat_eq_div]
    norm_num
  refine ⟨rfl, ?_, ?_, ?_, ?_, ?_, rfl⟩
  · rw [h2]
    rfl
  · rw [h32]
    rfl
  · rw [h32]
    rfl
  · rw [h12]
    rfl
  · rw [h114]
    rfl

